import Mathlib

/-!
Verification development for the retrieval ("RAG") engine of this repository.

The engine lives in `src/utils/rag_system.py` (class `SimpleRAGSystem`) and, in an
improved variant, in `src/src/full_llm.py` (class `ImprovedRAGSystem`).  This file
gives a shallow embedding of the engine's data model and operations:

* Python text is modelled as `List Char`; Python string indexing/slicing/strip are
  reproduced by `pyGet`, `pySlice`, `pyStrip` (including negative-index semantics).
* Embedding vectors are `List Int`.  The external ML models (SentenceTransformer,
  CrossEncoder) are pure parameters packed in a `Models` record: `embed` returns the
  already-L2-normalized vector the real model would produce, `modelDim` its dimension,
  `rerank` the cross-encoder score, and `crossLoad` the outcome of constructing the
  CrossEncoder (`none` = load succeeds, `some msg` = the constructor raises `msg`).
  The environment is deterministic within one process, matching how the loaded models
  are cached on the engine object.
* FAISS `IndexFlatL2` is modelled as the list of stored vectors; its `search` is exact
  k-nearest-neighbour by squared L2 distance (`faissSearch`), returning at most
  `min k count` hits in ascending distance order (the Python code drops the `-1`
  padding FAISS emits when `k` exceeds the index size, which yields the same list).
* Exceptions are modelled with `Option`: a helper that can raise returns the mutated
  state together with `Option` of the exception message, mirroring that Python keeps
  attribute mutations made before the raise.
* Disk persistence is modelled by the pure `Snapshot` value written by `save_index`
  and consumed by `load_index`; pickle round-trips are identity on well-typed data.
-/

set_option maxRecDepth 100000

namespace Rag

/-- An embedding vector (FAISS stores float32 rows; we use exact integers so that
distance comparisons are decidable). -/
abbrev Vec := List Int

/-- Chunk metadata as built by `add_text_document`: the caller-supplied mapping
(`extra`) plus the three engine fields merged in (`doc_id`, `chunk_id`,
`chunk_index`). -/
structure Meta where
  docId : String
  chunkId : String
  chunkIndex : Nat
  extra : List (String × String)
deriving DecidableEq, Repr, Inhabited

/-- The external ML models, as a deterministic pure environment. -/
structure Models where
  embed : String → List Char → Vec
  modelDim : String → Nat
  rerank : String → List Char → List Char → Int
  crossLoad : String → Option (List Char)

/-- Squared L2 distance between a query and a stored vector (what
`faiss.IndexFlatL2` returns as the score). -/
def sqDist (q v : Vec) : Int := ((q.zip v).map (fun p => (p.1 - p.2) * (p.1 - p.2))).sum

instance : IsTotal (Int × Nat) (fun a b => a.1 ≤ b.1) := ⟨fun a b => le_total a.1 b.1⟩
instance : IsTrans (Int × Nat) (fun a b => a.1 ≤ b.1) := ⟨fun _ _ _ h1 h2 => le_trans h1 h2⟩

/-- `index.search(q, k)` on a flat L2 index holding `vecs`: the `min k vecs.length`
closest stored vectors, as `(distance, ordinal position)` pairs in ascending
distance order (insertion sort is stable, so ties keep index order, as the exact
flat index does).  The Python caller filters out the `idx = -1` padding entries
FAISS produces when `k` exceeds the index size; `take k` on the sorted list of
real entries produces exactly the surviving list. -/
def faissSearch (vecs : List Vec) (q : Vec) (k : Nat) : List (Int × Nat) :=
  ((vecs.enum.map (fun p => (sqDist q p.2, p.1))).insertionSort (fun a b => a.1 ≤ b.1)).take k

/-! ## Python string primitives -/

/-- Python `t[i]` with negative-index wrap-around; `none` where Python would raise
`IndexError` (never reached on the guarded accesses the chunker makes). -/
def pyGet (t : List Char) (i : Int) : Option Char :=
  let j := if i < 0 then i + t.length else i
  if 0 ≤ j then t.get? j.toNat else none

/-- Python slice `t[a:b]` (step 1), with negative bounds and clamping. -/
def pySlice (t : List Char) (a b : Int) : List Char :=
  let n : Int := t.length
  let a' := if a < 0 then max 0 (n + a) else min a n
  let b' := if b < 0 then max 0 (n + b) else min b n
  (t.drop a'.toNat).take (b' - a').toNat

/-- Whitespace as stripped by Python's `str.strip()` (restricted to the whitespace
characters that can occur in this engine's texts). -/
def isPySpace (c : Char) : Bool := c == ' ' || c == '\n' || c == '\t' || c == '\r'

/-- Python `t.strip()`. -/
def pyStrip (t : List Char) : List Char :=
  ((t.dropWhile isPySpace).reverse.dropWhile isPySpace).reverse

/-- `pat` occurs at the head of `t`. -/
def firstEq : List Char → List Char → Bool
  | [], _ => true
  | _ :: _, [] => false
  | a :: as, b :: bs => a == b && firstEq as bs

/-- Python `pat in t` (substring containment). -/
def hasSub (t pat : List Char) : Bool :=
  (List.range (t.length + 1)).any (fun i => firstEq pat (t.drop i))

/-- Shorthand: a string literal as a character list. -/
def strToL (s : String) : List Char := s.toList

/-! ## The character-window chunker `SimpleRAGSystem._chunk_text`

```python
while start < len(text):
    end = start + chunk_size
    if end < len(text):
        for i in range(end, max(start + chunk_size - 100, start), -1):
            if text[i] in '.!?': end = i + 1; break
    while end < len(text) and text[end] != ' ': end += 1
    chunk = text[start:end].strip()
    if chunk: chunks.append(chunk)
    start = end - overlap
    while start >= 0 and start < len(text) and text[start] != ' ': start -= 1
    if start >= end: start = end
```
-/

/-- `text[i] in '.!?'`. -/
def isTermChar (c : Option Char) : Bool :=
  c == some '.' || c == some '!' || c == some '?'

/-- The backwards `for i in range(end, lo, -1)` scan for a sentence terminator:
returns `some (i+1)` for the first `i > lo` (scanning downward from the initial
`end`) with `text[i] ∈ '.!?'`, else `none`.  Structurally recursive on a step
counter so the kernel can evaluate it; `scanTerm` supplies a counter that covers
every step the Python `for` performs (`i` decreases toward `lo`, so the range has
exactly `max 0 (i - lo)` elements). -/
def scanTermAux (t : List Char) (lo : Int) : Nat → Int → Option Int
  | 0, _ => none
  | fuel + 1, i =>
    if lo < i then
      if isTermChar (pyGet t i) then some (i + 1) else scanTermAux t lo fuel (i - 1)
    else none

def scanTerm (t : List Char) (lo : Int) (i : Int) : Option Int :=
  scanTermAux t lo ((i - lo).toNat + 1) i

/-- `while end < len(text) and text[end] != ' ': end += 1`, structurally recursive
on a step counter; `walkFwd` supplies a counter that covers every step the loop
performs (`e` increases by 1 each step and the loop stops once `e = len(text)`,
so there are at most `max 0 (len - e)` steps). -/
def walkFwdAux (t : List Char) : Nat → Int → Int
  | 0, e => e
  | fuel + 1, e =>
    if e < (t.length : Int) ∧ pyGet t e ≠ some ' ' then walkFwdAux t fuel (e + 1) else e

def walkFwd (t : List Char) (e : Int) : Int :=
  walkFwdAux t (((t.length : Int) - e).toNat + 1) e

/-- `while start >= 0 and start < len(text) and text[start] != ' ': start -= 1`,
structurally recursive on a step counter; `walkBack` supplies a counter covering
every step (`s` decreases by 1 each step and the loop stops below 0, so there are
at most `max 0 (s + 1)` steps). -/
def walkBackAux (t : List Char) : Nat → Int → Int
  | 0, s => s
  | fuel + 1, s =>
    if 0 ≤ s ∧ s < (t.length : Int) ∧ pyGet t s ≠ some ' ' then walkBackAux t fuel (s - 1) else s

def walkBack (t : List Char) (s : Int) : Int :=
  walkBackAux t ((s + 1).toNat + 1) s

/-- One iteration of the chunker's outer `while` loop: from the current `start`,
the emitted chunk (possibly empty, in which case nothing is appended) and the
next value of `start`. -/
def chunkIter (cs ov : Nat) (t : List Char) (start : Int) : List Char × Int :=
  let n : Int := t.length
  let end0 : Int := start + cs
  let end1 : Int :=
    if end0 < n then
      match scanTerm t (max (start + (cs : Int) - 100) start) end0 with
      | some e => e
      | none => end0
    else end0
  let end2 := walkFwd t end1
  let chunk := pyStrip (pySlice t start end2)
  let s1 := end2 - (ov : Int)
  let s2 := walkBack t s1
  let s3 := if s2 ≥ end2 then end2 else s2
  (chunk, s3)

/-- The chunker's outer loop, fuelled.  `none` means the fuel ran out.  With the
fuel used by `chunk_text` (`length + 2`), `none` happens exactly when the Python
loop runs forever: a terminating run visits pairwise distinct `start` values
(the loop body is a function of `start`, so revisiting one is a cycle), all
drawn from `{-1} ∪ [0, length)`, hence takes at most `length + 1` iterations. -/
def chunkLoop (cs ov : Nat) (t : List Char) : Nat → Int → List (List Char) → Option (List (List Char))
  | 0, _, _ => none
  | fuel + 1, start, acc =>
    if start < (t.length : Int) then
      let p := chunkIter cs ov t start
      chunkLoop cs ov t fuel p.2 (if p.1.isEmpty then acc else acc ++ [p.1])
    else some acc

/-- `SimpleRAGSystem._chunk_text(text, chunk_size, overlap)`.  `none` = the Python
call never returns (see `chunkLoop`). -/
def chunk_textP (cs ov : Nat) (t : List Char) : Option (List (List Char)) :=
  if t.length ≤ cs then some [t] else chunkLoop cs ov t (t.length + 2) 0 []

/-- `_chunk_text` at its default parameters (`chunk_size=350`, `overlap=35`), the
form every caller in the repository uses. -/
def chunk_text (t : List Char) : Option (List (List Char)) := chunk_textP 350 35 t

/-! ## `SimpleRAGSystem` (src/utils/rag_system.py) -/

/-- Constructor configuration of `SimpleRAGSystem` (the `data_dir` path is where the
snapshot lives on disk; the snapshot itself is modelled as an explicit value). -/
structure SimpleConfig where
  embedding_model : String
  reranker_model : String
  use_reranker : Bool
deriving DecidableEq, Repr

/-- The mutable attributes of a `SimpleRAGSystem` object.  `model`/`reranker` being
loaded is tracked by the two Booleans; `index = none` models `self.index is None`,
`index = some vecs` a FAISS flat index holding `vecs`. -/
structure SimpleState where
  embedding_model : String
  reranker_model : String
  use_reranker : Bool
  model_loaded : Bool
  embedding_dimension : Option Nat
  index : Option (List Vec)
  documents : List (List Char)
  metadata : List Meta
  reranker_loaded : Bool
deriving DecidableEq, Repr

/-- The object state right after `__init__` field assignments, before the `load_index`
call (which, over an empty data directory, is a no-op). -/
def initSimple (cfg : SimpleConfig) : SimpleState :=
  { embedding_model := cfg.embedding_model, reranker_model := cfg.reranker_model,
    use_reranker := cfg.use_reranker, model_loaded := false, embedding_dimension := none,
    index := none, documents := [], metadata := [], reranker_loaded := false }

/-- `SimpleRAGSystem._ensure_model_loaded`.  Loads the embedding model (fixing the
dimension and creating an empty FAISS index if there is none), then — with no
`try`/`except` around it — constructs the `CrossEncoder` when `use_reranker` is set
and it is not yet loaded.  Returns the mutated state and `some msg` when the
`CrossEncoder` constructor raises (the exception propagates to the caller, but the
embedding-model mutations stay). -/
def ensure_model_loaded (M : Models) (s : SimpleState) : SimpleState × Option (List Char) :=
  let s1 :=
    if s.model_loaded then s
    else
      { s with model_loaded := true,
               embedding_dimension := some (M.modelDim s.embedding_model),
               index := match s.index with | none => some [] | i => i }
  if s1.use_reranker ∧ ¬s1.reranker_loaded then
    match M.crossLoad s1.reranker_model with
    | none => ({ s1 with reranker_loaded := true }, none)
    | some e => (s1, some e)
  else (s1, none)

/-- The success message `add_text_document` returns. -/
def addSuccessMsg (docId : String) (added total : Nat) : List Char :=
  strToL "✅ Added document '" ++ docId.toList ++ strToL "' with "
    ++ (toString added).toList ++ strToL "/" ++ (toString total).toList ++ strToL " chunks"

/-- The outer-`except` message `add_text_document` returns when something raised. -/
def addErrMsg (docId : String) (e : List Char) : List Char :=
  strToL "❌ Error adding document '" ++ docId.toList ++ strToL "': " ++ e

/-- The per-chunk loop of `add_text_document`: chunks whose stripped length is
below 10 are skipped; otherwise the chunk's embedding is appended to the FAISS
index and the chunk and its metadata are appended to the parallel stores.  When
`index` is `None` the per-chunk `try` swallows the `AttributeError` from
`self.index.add` and the chunk is dropped (unreachable after a successful
`_ensure_model_loaded`). -/
def addChunksLoop (M : Models) (model : String) (docId : String)
    (meta : List (String × String)) :
    List (Nat × List Char) → SimpleState → Nat → SimpleState × Nat
  | [], s, added => (s, added)
  | (i, chunk) :: rest, s, added =>
    if (pyStrip chunk).length < 10 then addChunksLoop M model docId meta rest s added
    else
      match s.index with
      | none => addChunksLoop M model docId meta rest s added
      | some ix =>
        let v := M.embed model chunk
        let m : Meta := { docId := docId, chunkId := docId ++ "_chunk_" ++ toString i,
                          chunkIndex := i, extra := meta }
        let s' := { s with index := some (ix ++ [v]),
                           documents := s.documents ++ [chunk],
                           metadata := s.metadata ++ [m] }
        addChunksLoop M model docId meta rest s' (added + 1)

/-- `SimpleRAGSystem.add_text_document(text, doc_id, metadata)`.  Returns `none`
when the call never returns (the chunker loops forever); otherwise the new state
and the returned message.  A `CrossEncoder` load failure inside
`_ensure_model_loaded` is caught by the outer `except` and turned into the error
message.  The trailing `save_index` only touches the disk, not the in-memory
state (persistence is modelled separately by `save_index`/`load_index`). -/
def add_text_document (M : Models) (s : SimpleState) (text : List Char)
    (docId : String) (meta : List (String × String)) : Option (SimpleState × List Char) :=
  match ensure_model_loaded M s with
  | (s1, some e) => some (s1, addErrMsg docId e)
  | (s1, none) =>
    match chunk_text text with
    | none => none
    | some chunks =>
      let r := addChunksLoop M s1.embedding_model docId meta chunks.enum s1 0
      some (r.1, addSuccessMsg docId r.2 chunks.length)

/-- The page filter of `add_pdf_document`: pages containing an abstract /
table-of-contents / acknowledgements marker are skipped, extraction stops at a
references marker, and the surviving pages are concatenated with `"\n"`.  (PDF
text extraction itself is external I/O; the argument is the per-page extracted
text.) -/
def extractPdfPages : List (List Char) → List Char
  | [] => []
  | p :: rest =>
    let low := p.map Char.toLower
    if hasSub low (strToL "abstract") || hasSub p (strToL "บทคัดย่อ")
        || hasSub p (strToL "กิตติกรรมประกาศ") || hasSub p (strToL "สารบัญ") then
      extractPdfPages rest
    else if hasSub low (strToL "reference") || hasSub p (strToL "เอกสารอ้างอิง") then []
    else (p ++ ['\n']) ++ extractPdfPages rest

/-- `SimpleRAGSystem.add_pdf_document`: filters/concatenates the extracted pages,
merges the PDF bookkeeping entries into the metadata, and delegates to
`add_text_document` (the `source_path` entry, a filesystem path, is omitted from
the model). -/
def add_pdf_document (M : Models) (s : SimpleState) (pages : List (List Char))
    (docId : String) (meta : List (String × String)) : Option (SimpleState × List Char) :=
  let text := extractPdfPages pages
  let pdfMeta := meta ++ [("source_type", "pdf"), ("num_pages", toString pages.length)]
  add_text_document M s text docId pdfMeta

/-- `SimpleRAGSystem._rebuild_index`: replaces the FAISS index with a fresh one
built from the embeddings of the surviving documents (an empty index when there
are none).  `_ensure_model_loaded` runs first and may raise (returned as
`some msg`, with the index then left untouched). -/
def rebuild_index (M : Models) (s : SimpleState) : SimpleState × Option (List Char) :=
  match ensure_model_loaded M s with
  | (s1, some e) => (s1, some e)
  | (s1, none) =>
    if s1.documents.isEmpty then ({ s1 with index := some [] }, none)
    else ({ s1 with index := some (s1.documents.map (M.embed s1.embedding_model)) }, none)

/-- The store shrinking step of `delete_document`: the positions to remove are
those whose metadata carries `doc_id`, and the same positions are deleted from
the parallel `documents` and `metadata` lists (expressed as one filter over
their zip; the Python loop deletes the collected indices in reverse order from
both lists, which produces the same pair of lists). -/
def deleteFiltered (s : SimpleState) (docId : String) : SimpleState :=
  let kept := (s.documents.zip s.metadata).filter (fun p => ¬(p.2.docId = docId))
  { s with documents := kept.map Prod.fst, metadata := kept.map Prod.snd }

/-- `SimpleRAGSystem.delete_document(doc_id)`: drops every chunk whose metadata
carries `doc_id`, then rebuilds the index.  If the rebuild's
`_ensure_model_loaded` raises, the `except` returns an error message with the
stores already shrunk and the index not rebuilt. -/
def delete_document (M : Models) (s : SimpleState) (docId : String) : SimpleState × List Char :=
  let removed := (s.metadata.filter (fun m => m.docId = docId)).length
  if removed = 0 then
    (s, strToL "Document '" ++ docId.toList ++ strToL "' not found")
  else
    match rebuild_index M (deleteFiltered s docId) with
    | (s3, some e) =>
      (s3, strToL "Error deleting document '" ++ docId.toList ++ strToL "': " ++ e)
    | (s3, none) =>
      (s3, strToL "Successfully deleted document '" ++ docId.toList ++ strToL "' ("
        ++ (toString removed).toList ++ strToL " chunks)")

/-! ## `SimpleRAGSystem.search` and `get_context_for_query` -/

/-- An intermediate candidate dict inside `search` (`content`, `metadata`,
`initial_score`, `index`, and the `rerank_score` key added in the rerank branch). -/
structure Cand where
  content : List Char
  metadata : Meta
  initial_score : Int
  index : Nat
  rerank_score : Option Int
deriving DecidableEq, Repr

/-- The descending stable sort `candidates.sort(key=rerank_score, reverse=True)`:
`a` may precede `b` when `a`'s score is at least `b`'s. -/
def candGE (a b : Cand) : Prop := b.rerank_score.getD 0 ≤ a.rerank_score.getD 0

instance : DecidableRel candGE := fun _ _ => inferInstanceAs (Decidable (_ ≤ _))
instance : IsTotal Cand candGE := ⟨fun a b => le_total (b.rerank_score.getD 0) (a.rerank_score.getD 0)⟩
instance : IsTrans Cand candGE := ⟨fun _ _ _ h1 h2 => le_trans h2 h1⟩

/-- A cleaned-up search result dict as returned by `SimpleRAGSystem.search`: either
the error dict the method produces on an empty store or a caught exception, or a
hit with `content`, `metadata`, `score`, `rank` (and, when reranking ran,
`rerank_score` and `initial_score`). -/
structure ResHit where
  content : List Char
  metadata : Meta
  score : Int
  rank : Nat
  rerank_score : Option Int
  initial_score : Option Int
deriving DecidableEq, Repr

inductive SRes where
  | err (msg : List Char)
  | hit (h : ResHit)
deriving DecidableEq, Repr

/-- The rank of a result (0 for an error entry, which carries no rank). -/
def SRes.rankOf : SRes → Nat
  | .err _ => 0
  | .hit h => h.rank

/-- The final score of a result (0 for an error entry). -/
def SRes.scoreOf : SRes → Int
  | .err _ => 0
  | .hit h => h.score

def errNoDocs : List Char := strToL "No documents in the system"

/-- `SimpleRAGSystem.search(query, n_results, use_reranker)`.  Empty store →
single error dict (before any model is loaded).  A raising
`_ensure_model_loaded` (CrossEncoder failure) is caught by the surrounding
`try` → single `"Search failed: …"` error dict.  Otherwise: pool of
`3×n_results` candidates when reranking is on (else `n_results`), capped at the
store size; rerank + descending stable sort + truncation when the reranker is
enabled and loaded; 1-based ranks; cleanup keeps `rerank_score`/`initial_score`
only for reranked results.  Returns the mutated state and the result list. -/
def search (M : Models) (s : SimpleState) (query : List Char) (nResults : Nat)
    (useR : Option Bool) : SimpleState × List SRes :=
  if s.documents.isEmpty then (s, [.err errNoDocs])
  else
    match ensure_model_loaded M s with
    | (s1, some e) => (s1, [.err (strToL "Search failed: " ++ e)])
    | (s1, none) =>
      let shouldRerank := useR.getD s1.use_reranker
      let initialK := min (if shouldRerank then nResults * 3 else nResults) s1.documents.length
      let qv := M.embed s1.embedding_model query
      let hits := faissSearch (s1.index.getD []) qv initialK
      let candidates : List Cand := hits.map (fun p =>
        { content := s1.documents.getD p.2 [], metadata := s1.metadata.getD p.2 default,
          initial_score := p.1, index := p.2, rerank_score := none })
      let reranked := shouldRerank ∧ s1.reranker_loaded ∧ ¬candidates.isEmpty
      let finalCands :=
        if reranked then
          ((candidates.map (fun c =>
              { c with rerank_score := some (M.rerank s1.reranker_model query c.content) })).insertionSort
            candGE).take nResults
        else candidates.take nResults
      let results := finalCands.enum.map (fun p =>
        SRes.hit { content := p.2.content, metadata := p.2.metadata,
                   score := if p.2.rerank_score.isSome then p.2.rerank_score.getD 0
                            else p.2.initial_score,
                   rank := p.1 + 1,
                   rerank_score := if shouldRerank ∧ p.2.rerank_score.isSome
                                   then p.2.rerank_score else none,
                   initial_score := if shouldRerank ∧ p.2.rerank_score.isSome
                                    then some p.2.initial_score else none })
      (s1, results)

/-- The score formatting `f"{score:.3f}"`; the model's scores are integers, for
which Python prints the integer followed by `.000`. -/
def fmtScore (i : Int) : List Char := (toString i).toList ++ strToL ".000"

/-- The tagged context piece
`f"[Source: {doc_id} | Relevance: {score:.3f}]\n{content}\n"`. -/
def mkPiece (h : ResHit) : List Char :=
  strToL "[Source: " ++ h.metadata.docId.toList ++ strToL " | Relevance: "
    ++ fmtScore h.score ++ strToL "]\n" ++ h.content ++ strToL "\n"

/-- The accumulation loop of `get_context_for_query`: error entries are skipped,
and the loop `break`s (returning what was accumulated) as soon as adding the next
piece would exceed the budget. -/
def ctxLoop (maxLen : Nat) : List SRes → Nat → List (List Char) → List (List Char)
  | [], _, acc => acc
  | SRes.err _ :: rest, cur, acc => ctxLoop maxLen rest cur acc
  | SRes.hit h :: rest, cur, acc =>
    let piece := mkPiece h
    if maxLen < cur + piece.length then acc
    else ctxLoop maxLen rest (cur + piece.length) (acc ++ [piece])

def noContextMsg : List Char := strToL "No relevant context found."

/-- `SimpleRAGSystem.get_context_for_query(query, max_context_length, use_reranker)`:
searches with `n_results=5`, returns the sentinel when the search produced
nothing or an error, else greedily accumulates whole tagged pieces within the
budget, returning the sentinel when none fits. -/
def get_context_for_query (M : Models) (s : SimpleState) (query : List Char)
    (maxLen : Nat) (useR : Option Bool) : List Char :=
  let rs := (search M s query 5 useR).2
  let headErr := match rs.head? with | some (SRes.err _) => true | _ => false
  if rs.isEmpty || headErr then noContextMsg
  else
    let parts := ctxLoop maxLen rs 0 []
    if parts.isEmpty then noContextMsg
    else strToL "Relevant context:\n\n" ++ List.intercalate (strToL "\n---\n") parts

/-- The tagged piece a search result contributes to the context (`none` for an
error entry, which the loop skips). -/
def pieceOf : SRes → Option (List Char)
  | .err _ => none
  | .hit h => some (mkPiece h)

/-- The number of pieces the greedy accumulation accepts when the running length
starts at `cur`: pieces are taken in order until the first whose addition would
exceed the budget. -/
def greedyCount (maxLen : Nat) : List (List Char) → Nat → Nat
  | [], _ => 0
  | p :: rest, cur =>
    if maxLen < cur + p.length then 0 else greedyCount maxLen rest (cur + p.length) + 1

/-! ## Persistence (`save_index` / `load_index`) -/

/-- The contents of `documents.pkl`. -/
structure SavedData where
  documents : List (List Char)
  metadata : List Meta
  embedding_dimension : Option Nat
  embedding_model : String
  reranker_model : String
  use_reranker : Bool
deriving DecidableEq, Repr

/-- The on-disk snapshot of one engine instance: the optional FAISS binary
(`faiss_index.bin`, written only when `self.index is not None`) and the pickle
bundle (`documents.pkl`, always written). -/
structure Snapshot where
  indexFile : Option (List Vec)
  dataFile : Option SavedData
deriving DecidableEq, Repr

/-- `SimpleRAGSystem.save_index` over a fresh data directory: the snapshot the two
writes produce. -/
def save_index (s : SimpleState) : Snapshot :=
  { indexFile := s.index,
    dataFile := some { documents := s.documents, metadata := s.metadata,
                       embedding_dimension := s.embedding_dimension,
                       embedding_model := s.embedding_model,
                       reranker_model := s.reranker_model,
                       use_reranker := s.use_reranker } }

/-- Python truthiness of `self.embedding_dimension` (`None` and `0` are falsy). -/
def dimTruthy : Option Nat → Bool
  | some d => d ≠ 0
  | none => false

/-- `SimpleRAGSystem.load_index` reading `disk` into object state `s`.  The first
component is the mutated state; the second is the value the method returns to
its caller — which is Python's `None` on every path, whatever mismatch was
found.  When the pickle exists, `documents`, `metadata`, `embedding_dimension`,
`reranker_model` and `use_reranker` are installed unconditionally; then a saved
model name differing from the configured one merely causes an early `return`
(the FAISS file is skipped, nothing is reported); otherwise the FAISS index is
read whenever the file exists and the recorded dimension is truthy — its
dimension is never compared to anything. -/
def load_index (disk : Snapshot) (s : SimpleState) : SimpleState × Option (List Char) :=
  match disk.dataFile with
  | none => (s, none)
  | some d =>
    let s1 := { s with documents := d.documents, metadata := d.metadata,
                       embedding_dimension := d.embedding_dimension,
                       reranker_model := d.reranker_model,
                       use_reranker := d.use_reranker }
    if d.embedding_model ≠ s.embedding_model then (s1, none)
    else
      match disk.indexFile with
      | some v => if dimTruthy d.embedding_dimension then ({ s1 with index := some v }, none)
                  else (s1, none)
      | none => (s1, none)

/-- `SimpleRAGSystem.__init__` over a data directory holding `disk`: field
assignments, then `self.load_index()`. -/
def engineInit (cfg : SimpleConfig) (disk : Snapshot) : SimpleState :=
  (load_index disk (initSimple cfg)).1

/-! ## Operation sequences for the store/index invariant -/

/-- A public mutating operation of `SimpleRAGSystem` (PDF pages arrive as their
extracted per-page text). -/
inductive SimpleOp where
  | addText (text : List Char) (docId : String) (meta : List (String × String))
  | addPdf (pages : List (List Char)) (docId : String) (meta : List (String × String))
  | delete (docId : String)

/-- Applying one operation.  An `add` whose chunker never returns leaves no
completed state; subsequent operations are modelled from the unchanged state
(every state such a run produces is also produced by the run without the hung
call, so the invariant statement is unaffected). -/
def applyOp (M : Models) (s : SimpleState) : SimpleOp → SimpleState
  | .addText t d m => match add_text_document M s t d m with | some r => r.1 | none => s
  | .addPdf p d m => match add_pdf_document M s p d m with | some r => r.1 | none => s
  | .delete d => (delete_document M s d).1

/-- Running a sequence of operations from a freshly constructed engine over an
empty data directory. -/
def runOps (M : Models) (cfg : SimpleConfig) (ops : List SimpleOp) : SimpleState :=
  ops.foldl (applyOp M) (initSimple cfg)

/-! ## `ImprovedRAGSystem` (src/src/full_llm.py) -/

/-- A result dict of `ImprovedRAGSystem.search` (no `rank` field in this
variant; `rerank_score` appears only when reranking ran). -/
structure IRes where
  content : List Char
  metadata : Meta
  score : Int
  index : Nat
  rerank_score : Option Int
deriving DecidableEq, Repr

/-- Descending stable sort key `x.get("rerank_score", 0)` with `reverse=True`. -/
def iresGE (a b : IRes) : Prop := b.rerank_score.getD 0 ≤ a.rerank_score.getD 0

instance : DecidableRel iresGE := fun _ _ => inferInstanceAs (Decidable (_ ≤ _))
instance : IsTotal IRes iresGE := ⟨fun a b => le_total (b.rerank_score.getD 0) (a.rerank_score.getD 0)⟩
instance : IsTrans IRes iresGE := ⟨fun _ _ _ h1 h2 => le_trans h2 h1⟩

/-- Constructor configuration of `ImprovedRAGSystem`. -/
structure ImpConfig where
  embedding_model : String
  reranker_model : String
  use_reranker : Bool
  cache_embeddings : Bool
deriving DecidableEq, Repr

/-- The mutable attributes of an `ImprovedRAGSystem` object.  The cache maps the
string `f"{query}_{n_results}"` to a result list (the code stores its MD5 hex
digest as the dict key; hashing a key is observation-equivalent for lookups, so
the model keys by the pre-image directly). -/
structure ImpState where
  embedding_model : String
  reranker_model : String
  use_reranker : Bool
  cache_embeddings : Bool
  model_loaded : Bool
  embedding_dimension : Option Nat
  index : Option (List Vec)
  documents : List (List Char)
  metadata : List Meta
  embedding_cache : List (List Char × List IRes)
  reranker_loaded : Bool
deriving DecidableEq, Repr

/-- Fresh `ImprovedRAGSystem` over an empty data directory. -/
def initImp (cfg : ImpConfig) : ImpState :=
  { embedding_model := cfg.embedding_model, reranker_model := cfg.reranker_model,
    use_reranker := cfg.use_reranker, cache_embeddings := cfg.cache_embeddings,
    model_loaded := false, embedding_dimension := none, index := none,
    documents := [], metadata := [], embedding_cache := [], reranker_loaded := false }

/-- `ImprovedRAGSystem._ensure_models_loaded`: like the simple variant, but the
`CrossEncoder` construction is wrapped in `try`/`except`; a failure logs a
warning and sets `self.use_reranker = False` — it never propagates. -/
def ensure_models_loaded (M : Models) (s : ImpState) : ImpState :=
  let s1 :=
    if s.model_loaded then s
    else
      { s with model_loaded := true,
               embedding_dimension := some (M.modelDim s.embedding_model),
               index := match s.index with | none => some [] | i => i }
  if s1.use_reranker ∧ ¬s1.reranker_loaded then
    match M.crossLoad s1.reranker_model with
    | none => { s1 with reranker_loaded := true }
    | some _ => { s1 with use_reranker := false }
  else s1

/-- The memoization key `f"{query}_{n_results}"` (the pre-image of the MD5 the
code computes). -/
def cacheKey (query : List Char) (n : Nat) : List Char :=
  query ++ strToL "_" ++ (toString n).toList

/-- `ImprovedRAGSystem.search(query, n_results, use_reranker)`.  Note the
`use_reranker` argument is accepted but never consulted — every decision reads
`self.use_reranker`.  Empty store → `[]`.  A cache hit (when `cache_embeddings`)
returns the memoized list unchanged.  Otherwise candidates are retrieved,
optionally reranked/truncated, memoized, and returned.  Dict assignment
overwrites the key; consing the new entry is lookup-equivalent. -/
def isearch (M : Models) (s : ImpState) (query : List Char) (nResults : Nat)
    (useR : Option Bool) : ImpState × List IRes :=
  if s.documents.isEmpty then (s, [])
  else
    let _ := useR
    let s1 := ensure_models_loaded M s
    let key := cacheKey query nResults
    match (if s1.cache_embeddings then s1.embedding_cache.lookup key else none) with
    | some cached => (s1, cached)
    | none =>
      let qv := M.embed s1.embedding_model query
      let k := min (if s1.use_reranker then nResults * 3 else nResults) s1.documents.length
      let hits := faissSearch (s1.index.getD []) qv k
      let results : List IRes := hits.map (fun p =>
        { content := s1.documents.getD p.2 [], metadata := s1.metadata.getD p.2 default,
          score := p.1, index := p.2, rerank_score := none })
      let results2 :=
        if s1.use_reranker ∧ s1.reranker_loaded ∧ ¬results.isEmpty then
          ((results.map (fun r =>
              { r with rerank_score := some (M.rerank s1.reranker_model query r.content) })).insertionSort
            iresGE).take nResults
        else results
      let s2 := if s1.cache_embeddings
                then { s1 with embedding_cache := (key, results2) :: s1.embedding_cache }
                else s1
      (s2, results2)

/-- `ImprovedRAGSystem._smart_chunk_text` at its default parameters
(`chunk_size=400`, `overlap=50`, `min_chunk_size=100`): sentence splitting on
`.`/`!`/`?`, greedy accumulation, sentence-suffix overlap, chunks below the
minimum dropped. -/
def overlapTail : List (List Char) → List (List Char) → Nat → List (List Char) × Nat
  | [], acc, l => (acc, l)
  | sTxt :: rest, acc, l =>
    if l + sTxt.length ≤ 50 then overlapTail rest (sTxt :: acc) (l + sTxt.length)
    else (acc, l)

/-- `'. '.join(current_chunk) + '.'`. -/
def joinSentences (cur : List (List Char)) : List Char :=
  List.intercalate (strToL ". ") cur ++ ['.']

/-- The per-sentence step of `_smart_chunk_text` (state: emitted chunks, current
buffer, current length — the length counts sentence characters only, as the code
does). -/
def smartStep (st : List (List Char) × List (List Char) × Nat) (sentence : List Char) :
    List (List Char) × List (List Char) × Nat :=
  let (chunks, cur, curLen) := st
  if curLen + sentence.length ≤ 400 then (chunks, cur ++ [sentence], curLen + sentence.length)
  else
    let chunks' :=
      if cur.isEmpty then chunks
      else
        let ct := joinSentences cur
        if 100 ≤ ct.length then chunks ++ [ct] else chunks
    if ¬cur.isEmpty then
      let ov := overlapTail cur.reverse [] 0
      (chunks', ov.1 ++ [sentence], ov.2 + sentence.length)
    else (chunks', [sentence], sentence.length)

def smart_chunk_text (t : List Char) : List (List Char) :=
  if t.length ≤ 400 then (if 100 ≤ t.length then [t] else [])
  else
    let sentences := (((t.map (fun c => if c == '!' || c == '?' then '.' else c)).splitOn '.').map
      pyStrip).filter (fun sTxt => ¬sTxt.isEmpty)
    let st := sentences.foldl smartStep ([], [], 0)
    if st.2.1.isEmpty then st.1
    else
      let ct := joinSentences st.2.1
      if 100 ≤ ct.length then st.1 ++ [ct] else st.1

/-- `ImprovedRAGSystem.add_text_document`.  Batch encoding over batches of 32 is
observation-equivalent to mapping `embed` over the chunks.  With zero chunks the
`faiss.normalize_L2` call on the degenerate empty array raises and the `except`
returns an error string, leaving the stores untouched.  The embedding cache is
never touched. -/
def iadd_text_document (M : Models) (s : ImpState) (text : List Char)
    (docId : String) (meta : List (String × String)) : ImpState × List Char :=
  let s1 := ensure_models_loaded M s
  let chunks := smart_chunk_text text
  if chunks.isEmpty then (s1, strToL "Error adding document: normalize_L2 on empty batch")
  else
    let embs := chunks.map (M.embed s1.embedding_model)
    let metas := chunks.enum.map (fun p =>
      ({ docId := docId, chunkId := docId ++ "_chunk_" ++ toString p.1,
         chunkIndex := p.1, extra := meta } : Meta))
    ({ s1 with index := some (s1.index.getD [] ++ embs),
               documents := s1.documents ++ chunks,
               metadata := s1.metadata ++ metas },
     strToL "Successfully added document '" ++ docId.toList ++ strToL "' with "
       ++ (toString chunks.length).toList ++ strToL " chunks")

/-! ## Concrete fixtures for witnesses and counterexamples -/

/-- A concrete deterministic model environment: 2-dimensional embeddings, a
reranker preferring contents starting with `'a'`, and a CrossEncoder that loads
fine. -/
def testModels : Models :=
  { embed := fun _ t => if t.head? = some 'b' then [1, 0] else if t.head? = some 'q' then [1, 0] else [0, 1],
    modelDim := fun _ => 2,
    rerank := fun _ _ c => if c.head? = some 'a' then 10 else 1,
    crossLoad := fun _ => none }

/-- The same environment but with a CrossEncoder whose constructor raises. -/
def failModels : Models :=
  { embed := testModels.embed, modelDim := testModels.modelDim,
    rerank := testModels.rerank, crossLoad := fun _ => some (strToL "boom") }

def testCfg : SimpleConfig :=
  { embedding_model := "test-embedder", reranker_model := "test-reranker", use_reranker := false }

def testCfgR : SimpleConfig := { testCfg with use_reranker := true }

def metaA : Meta := { docId := "d1", chunkId := "d1_chunk_0", chunkIndex := 0, extra := [] }
def metaB : Meta := { docId := "d2", chunkId := "d2_chunk_0", chunkIndex := 0, extra := [] }

/-- A reranker-enabled engine holding one chunk, with the embedding model already
loaded but the reranker not yet loaded. -/
def sC6 : SimpleState :=
  { initSimple testCfgR with
    documents := [strToL "alpha chunk"], metadata := [metaA],
    index := some [[0, 1]], model_loaded := true, embedding_dimension := some 2 }

/-- A persisted snapshot whose recorded embedding-model name differs from the
engine's configured one. -/
def savedC5 : SavedData :=
  { documents := [strToL "chunk one"], metadata := [metaA], embedding_dimension := some 2,
    embedding_model := "other-model", reranker_model := "test-reranker", use_reranker := false }

def snapC5 : Snapshot := { indexFile := some [[9, 9]], dataFile := some savedC5 }

/-- A snapshot whose model name matches but whose recorded dimension (7) and
stored vectors disagree with the configured model's dimension (2). -/
def savedC5dim : SavedData :=
  { savedC5 with embedding_model := "test-embedder", embedding_dimension := some 7 }

def snapC5dim : Snapshot :=
  { indexFile := some [[9, 9, 9, 9, 9, 9, 9]], dataFile := some savedC5dim }

/-- Improved-engine configuration with caching on (the default). -/
def testImpCfg : ImpConfig :=
  { embedding_model := "test-embedder", reranker_model := "test-reranker",
    use_reranker := false, cache_embeddings := true }

/-- Two 100-character documents (long enough for `_smart_chunk_text` to keep them
as single chunks). -/
def tDocA : List Char := List.replicate 100 'a'
def tDocB : List Char := List.replicate 100 'b'

/-- Improved-engine configuration with reranking and caching on. -/
def testImpCfgR : ImpConfig := { testImpCfg with use_reranker := true }

/-- A reranker-enabled improved engine holding one chunk, embedding model loaded,
reranker not yet loaded, empty cache. -/
def siC6 : ImpState :=
  { initImp testImpCfgR with
    documents := [strToL "alpha chunk"], metadata := [metaA],
    index := some [[0, 1]], model_loaded := true, embedding_dimension := some 2 }

/-- A well-formed simple engine holding two chunks, for witnesses. -/
def sTwo : SimpleState :=
  { initSimple testCfgR with
    documents := [strToL "aaa chunk", strToL "bbb chunk"], metadata := [metaA, metaB],
    index := some [[0, 1], [1, 0]], model_loaded := true, embedding_dimension := some 2,
    reranker_loaded := true }

/-- The C10 scenario: add `tDocA`, search (primes the cache), add `tDocB` (whose
vector is strictly closer to the query), search again with the same key. -/
def impA : ImpState := (iadd_text_document testModels (initImp testImpCfg) tDocA "d1" []).1

def impSearch1 : ImpState × List IRes := isearch testModels impA (strToL "q") 1 none

def impB : ImpState := (iadd_text_document testModels impSearch1.1 tDocB "d2" []).1

def impSearch2 : ImpState × List IRes := isearch testModels impB (strToL "q") 1 none

/-- The invariant that C1 asserts, strengthened with the reachability facts the
induction needs: parallel store lengths, the index holding exactly the
embeddings of the stored chunks at the same positions, an index object existing
once the model is loaded, and — whenever the store is non-empty — the models
having been loaded by the successful ingestion that filled it. -/
def InvC1 (M : Models) (s : SimpleState) : Prop :=
  s.metadata.length = s.documents.length ∧
  s.index.getD [] = s.documents.map (M.embed s.embedding_model) ∧
  (s.model_loaded = true → s.index.isSome = true) ∧
  (¬s.documents.isEmpty → s.model_loaded = true ∧
      (s.use_reranker = true → s.reranker_loaded = true))

/-! # Theorems for the specification claims -/

/-! ## C2 — searching an empty store -/

/-- C2, counterexample: on an empty store, `SimpleRAGSystem.search` does not
return an empty sequence — it returns a one-element list holding the error dict
`{"error": "No documents in the system"}`. -/
theorem C2_counterexample :
    (search testModels (initSimple testCfg) (strToL "unrelated query") 5 none).2
        = [SRes.err errNoDocs] ∧
    [SRes.err errNoDocs] ≠ ([] : List SRes) := by
  decide

/-- C2, amended: on an empty store no exception escapes either engine, but the
two variants disagree with the claim's shape: `ImprovedRAGSystem.search` returns
the empty list, while `SimpleRAGSystem.search` returns the single error value
`{"error": "No documents in the system"}`. -/
theorem C2_amended (M : Models) (q : List Char) (n : Nat) (u : Option Bool)
    (s : SimpleState) (si : ImpState)
    (hs : s.documents = []) (hsi : si.documents = []) :
    (search M s q n u).2 = [SRes.err errNoDocs] ∧ (isearch M si q n u).2 = [] := by
  constructor
  · simp [search, hs]
  · simp [isearch, hsi]

theorem C2_witness :
    (initSimple testCfg).documents = [] ∧ (initImp testImpCfg).documents = [] ∧
    ((search testModels (initSimple testCfg) (strToL "q") 5 none).2 = [SRes.err errNoDocs] ∧
      (isearch testModels (initImp testImpCfg) (strToL "q") 5 none).2 = []) :=
  ⟨rfl, rfl, C2_amended testModels (strToL "q") 5 none _ _ rfl rfl⟩

/-! ## C3 — ingesting a document whose chunks are all below the minimum size -/

/-- C3, counterexample: `add_text_document` on the text `"hi"` (its single chunk
is stripped-length 2 < 10, so zero chunks are added) returns the success-form
message `"✅ Added document 'doc' with 0/1 chunks"`, not a failure value; the
stores stay empty. -/
theorem C3_counterexample :
    (add_text_document testModels (initSimple testCfg) (strToL "hi") "doc" []).map
        (fun r => (r.2, r.1.documents, r.1.metadata, (r.1.index.getD []).length))
      = some (strToL "✅ Added document 'doc' with 0/1 chunks", [], [], 0) := by
  decide

/-- In `add_text_document`'s per-chunk loop, chunks whose stripped length is
below 10 are skipped without touching any state. -/
theorem addChunksLoop_all_short (M : Models) (model docId : String)
    (meta : List (String × String)) :
    ∀ (cl : List (Nat × List Char)) (s : SimpleState),
      (∀ p ∈ cl, (pyStrip p.2).length < 10) →
      addChunksLoop M model docId meta cl s 0 = (s, 0) := by
  intro cl
  induction cl with
  | nil => intro s _; rfl
  | cons p rest ih =>
    intro s h
    have hp := h p (List.mem_cons_self p rest)
    simp only [addChunksLoop, if_pos hp]
    exact ih s (fun q hq => h q (List.mem_cons_of_mem p hq))

/-- `_ensure_model_loaded` touches only the model/dimension/index-creation and
reranker-loaded attributes: documents, metadata, the configured names, the
reranker toggle and the index contents are unchanged (a freshly created index is
empty), and afterwards the embedding model is always loaded. -/
theorem ensure_fields (M : Models) (s : SimpleState) :
    (ensure_model_loaded M s).1.documents = s.documents ∧
    (ensure_model_loaded M s).1.metadata = s.metadata ∧
    (ensure_model_loaded M s).1.embedding_model = s.embedding_model ∧
    (ensure_model_loaded M s).1.use_reranker = s.use_reranker ∧
    (ensure_model_loaded M s).1.reranker_model = s.reranker_model ∧
    (ensure_model_loaded M s).1.index.getD [] = s.index.getD [] ∧
    (ensure_model_loaded M s).1.model_loaded = true := by
  obtain ⟨em, rm, ur, ml, dim, idx, docs, md, rl⟩ := s
  simp only [ensure_model_loaded]
  cases ml <;> cases ur <;> cases rl <;> cases idx <;>
    cases hcl : M.crossLoad rm <;> simp [hcl]

/-- C3, amended: when every chunk of the text is below the minimum size,
`add_text_document` adds nothing and returns a success-style result string
reporting `0/N` chunks (no `EmptyChunksError`-like failure value exists in the
code); the document store, metadata store and index contents are unchanged. -/
theorem C3_amended (M : Models) (s : SimpleState) (text : List Char) (docId : String)
    (meta : List (String × String)) (chunks : List (List Char))
    (hc : chunk_text text = some chunks)
    (hshort : ∀ c ∈ chunks, (pyStrip c).length < 10)
    (hens : (ensure_model_loaded M s).2 = none) :
    add_text_document M s text docId meta =
      some ((ensure_model_loaded M s).1, addSuccessMsg docId 0 chunks.length) ∧
    (ensure_model_loaded M s).1.documents = s.documents ∧
    (ensure_model_loaded M s).1.metadata = s.metadata ∧
    (ensure_model_loaded M s).1.index.getD [] = s.index.getD [] := by
  obtain ⟨h1, h2, _, _, _, h6, _⟩ := ensure_fields M s
  have hloop : addChunksLoop M (ensure_model_loaded M s).1.embedding_model docId meta
      chunks.enum (ensure_model_loaded M s).1 0 = ((ensure_model_loaded M s).1, 0) := by
    refine addChunksLoop_all_short _ _ _ _ _ _ (fun p hp => ?_)
    exact hshort p.2 (List.snd_mem_of_mem_enum hp)
  refine ⟨?_, h1, h2, h6⟩
  simp only [add_text_document]
  rcases he : ensure_model_loaded M s with ⟨s1, exc⟩
  have hexc : exc = none := by rw [he] at hens; exact hens
  subst hexc
  rw [he] at hloop
  simp [hc, hloop, he]

/-! ## C4 — chunker termination / forward progress -/

/-- On the 351-character input with no spaces and no sentence terminators, the
first loop iteration emits the whole text as a chunk and sets `start` to `-1`
(the backward space-walk runs past the beginning). -/
theorem chunkIter_first :
    chunkIter 350 35 (List.replicate 351 'a') 0 = (List.replicate 351 'a', -1) := by
  decide

/-- From `start = -1` the iteration emits the one-character chunk `text[-1:end]`
and maps `start` back to `-1`: the loop cycles. -/
theorem chunkIter_stuck :
    chunkIter 350 35 (List.replicate 351 'a') (-1) = (['a'], -1) := by
  decide

/-- Unfolding one fuelled step of the chunker loop while the loop guard holds. -/
theorem chunkLoop_succ (cs ov : Nat) (t : List Char) (fuel : Nat) (start : Int)
    (acc : List (List Char)) (h : start < (t.length : Int)) :
    chunkLoop cs ov t (fuel + 1) start acc =
      chunkLoop cs ov t fuel (chunkIter cs ov t start).2
        (if (chunkIter cs ov t start).1.isEmpty then acc
         else acc ++ [(chunkIter cs ov t start).1]) := by
  simp [chunkLoop, h]

/-- Once `start` is `-1` on the degenerate input, no amount of fuel makes the
loop exit: the Python loop runs forever. -/
theorem chunkLoop_stuck : ∀ (fuel : Nat) (acc : List (List Char)),
    chunkLoop 350 35 (List.replicate 351 'a') fuel (-1) acc = none := by
  intro fuel
  induction fuel with
  | zero => intro _; rfl
  | succ n ih =>
    intro acc
    have hlt : (-1 : Int) < ((List.replicate 351 'a').length : Int) := by decide
    rw [chunkLoop_succ _ _ _ _ _ _ hlt, chunkIter_stuck]
    exact ih _

/-- C4: the claim is right and the code is wrong.  On the degenerate input of
351 non-space, non-terminator characters (`'a' * 351`) with the default
`chunk_size=350`, `overlap=35`, `_chunk_text` makes no forward progress and
raises nothing: the first iteration maps `start = 0` to `-1`, every subsequent
iteration maps `-1` to `-1` while `-1 < len(text)` keeps the loop alive, so the
call never returns (`chunk_text` evaluates to `none`, the divergence marker) —
despite the code's own `# Prevent infinite loops` guard, and with no
`ChunkingError` anywhere in the code. -/
theorem C4_chunk_text_diverges :
    chunk_text (List.replicate 351 'a') = none ∧
    (chunkIter 350 35 (List.replicate 351 'a') 0).2 = -1 ∧
    (chunkIter 350 35 (List.replicate 351 'a') (-1)).2 = -1 ∧
    (-1 : Int) < ((List.replicate 351 'a').length : Int) := by
  refine ⟨?_, by rw [chunkIter_first], by rw [chunkIter_stuck], by decide⟩
  have h351 : ¬((List.replicate 351 'a').length ≤ 350) := by decide
  simp only [chunk_text, chunk_textP, if_neg h351]
  have hlen : (List.replicate 351 'a').length + 2 = 352 + 1 := by decide
  rw [hlen, chunkLoop_succ _ _ _ _ _ _ (by decide), chunkIter_first]
  have hne : ¬(List.replicate 351 'a').isEmpty := by decide
  simp only [hne, if_neg, Bool.false_eq_true, if_false, List.nil_append]
  exact chunkLoop_stuck 352 _

/-! ## C1 — the store/index parallelism invariant -/

/-- `_ensure_model_loaded` keeps an existing index object and creates one when
the model gets loaded: afterwards an index object exists whenever one existed
before or the model had not been loaded yet. -/
theorem ensure_index_isSome (M : Models) (s : SimpleState)
    (h : s.model_loaded = true → s.index.isSome = true) :
    (ensure_model_loaded M s).1.index.isSome = true := by
  obtain ⟨em, rm, ur, ml, dim, idx, docs, md, rl⟩ := s
  simp only at h
  simp only [ensure_model_loaded]
  cases ml <;> cases ur <;> cases rl <;> cases idx <;>
    cases hcl : M.crossLoad rm <;> simp_all [hcl]

/-- How `_ensure_model_loaded` treats the reranker: on success the reranker is
loaded whenever it is enabled; if the reranker was already loaded (or disabled)
nothing is attempted, so no exception can arise and the flag is unchanged; an
exception arises only from the enabled-and-not-yet-loaded configuration. -/
theorem ensure_reranker (M : Models) (s : SimpleState) :
    ((ensure_model_loaded M s).2 = none →
      ((ensure_model_loaded M s).1.use_reranker = true →
        (ensure_model_loaded M s).1.reranker_loaded = true)) ∧
    ((s.use_reranker = true → s.reranker_loaded = true) →
      (ensure_model_loaded M s).2 = none ∧
      (ensure_model_loaded M s).1.reranker_loaded = s.reranker_loaded) ∧
    ((ensure_model_loaded M s).2 ≠ none →
      s.use_reranker = true ∧ s.reranker_loaded = false) := by
  obtain ⟨em, rm, ur, ml, dim, idx, docs, md, rl⟩ := s
  simp only [ensure_model_loaded]
  cases ml <;> cases ur <;> cases rl <;> cases idx <;>
    cases hcl : M.crossLoad rm <;> simp [hcl]

/-- The per-chunk loop of `add_text_document` preserves the parallel-store
invariant: every chunk it accepts appends one vector, one document and one
metadata entry, the vector being the chunk's embedding at the same position. -/
theorem addChunksLoop_invariant (M : Models) (model docId : String)
    (meta : List (String × String)) :
    ∀ (cl : List (Nat × List Char)) (s : SimpleState) (k : Nat),
      s.metadata.length = s.documents.length →
      s.index.getD [] = s.documents.map (M.embed model) →
      s.index.isSome = true →
      (addChunksLoop M model docId meta cl s k).1.metadata.length
          = (addChunksLoop M model docId meta cl s k).1.documents.length ∧
      (addChunksLoop M model docId meta cl s k).1.index.getD []
          = (addChunksLoop M model docId meta cl s k).1.documents.map (M.embed model) ∧
      (addChunksLoop M model docId meta cl s k).1.index.isSome = true ∧
      (addChunksLoop M model docId meta cl s k).1.embedding_model = s.embedding_model ∧
      (addChunksLoop M model docId meta cl s k).1.use_reranker = s.use_reranker ∧
      (addChunksLoop M model docId meta cl s k).1.model_loaded = s.model_loaded ∧
      (addChunksLoop M model docId meta cl s k).1.reranker_loaded = s.reranker_loaded := by
  intro cl
  induction cl with
  | nil => intro s k h1 h2 h3; exact ⟨h1, h2, h3, rfl, rfl, rfl, rfl⟩
  | cons p rest ih =>
    intro s k h1 h2 h3
    rcases p with ⟨i, chunk⟩
    by_cases hshort : (pyStrip chunk).length < 10
    · simpa only [addChunksLoop, if_pos hshort] using ih s k h1 h2 h3
    · rcases hidx : s.index with _ | ix
      · rw [hidx] at h3; simp at h3
      · simp only [addChunksLoop, if_neg hshort, hidx]
        have hix : ix = s.documents.map (M.embed model) := by
          rw [hidx] at h2; simpa using h2
        refine ih _ _ ?_ ?_ ?_
        · simp [h1]
        · simp [hix]
        · simp

/-- `add_text_document` preserves the C1 invariant whenever the call returns. -/
theorem add_preserves_InvC1 (M : Models) (s : SimpleState) (text : List Char)
    (docId : String) (meta : List (String × String)) (r : SimpleState × List Char)
    (h : InvC1 M s) (hr : add_text_document M s text docId meta = some r) :
    InvC1 M r.1 := by
  obtain ⟨h1, h2, h3, h4⟩ := h
  obtain ⟨e1, e2, e3, e4, e5, e6, e7⟩ := ensure_fields M s
  have hsome := ensure_index_isSome M s h3
  obtain ⟨er1, er2, er3⟩ := ensure_reranker M s
  rcases he : ensure_model_loaded M s with ⟨s1, exc⟩
  have hs1 : (ensure_model_loaded M s).1 = s1 := by rw [he]
  have hs2 : (ensure_model_loaded M s).2 = exc := by rw [he]
  rw [hs1] at e1 e2 e3 e4 e5 e6 e7 hsome
  rw [hs1, hs2] at er1
  rw [hs2] at er3
  simp only [add_text_document, he] at hr
  rcases exc with _ | e
  · -- ensure succeeded
    rcases hc : chunk_text text with _ | chunks
    · rw [hc] at hr; exact absurd hr (by simp)
    · rw [hc] at hr
      simp only [Option.some_inj] at hr
      obtain ⟨l1, l2, l3, l4, l5, l6, l7⟩ :=
        addChunksLoop_invariant M s1.embedding_model docId meta chunks.enum s1 0
          (by rw [e1, e2]; exact h1)
          (by rw [e6, e1, e3]; exact h2)
          hsome
      have hr1 : r.1 = (addChunksLoop M s1.embedding_model docId meta chunks.enum s1 0).1 := by
        rw [← hr]
      rw [show InvC1 M r.1 =
            InvC1 M (addChunksLoop M s1.embedding_model docId meta chunks.enum s1 0).1 from
          by rw [hr1]]
      refine ⟨l1, ?_, fun _ => l3, fun _ => ⟨by rw [l6]; exact e7, fun hur => ?_⟩⟩
      · rw [l2, l4]
      · rw [l7]
        exact er1 rfl (by rw [← l5]; exact hur)
  · -- CrossEncoder load raised; caught by the outer except
    simp only [Option.some_inj] at hr
    have hr1 : r.1 = s1 := by rw [← hr]
    have hraise := er3 (by simp)
    rw [show InvC1 M r.1 = InvC1 M s1 from by rw [hr1]]
    refine ⟨?_, ?_, fun _ => hsome, fun hne => ?_⟩
    · rw [e1, e2]; exact h1
    · rw [e6, e1, e3]; exact h2
    · exfalso
      rw [e1] at hne
      have := (h4 hne).2 hraise.1
      rw [hraise.2] at this
      exact absurd this (by simp)

/-- When the reranker is already loaded (or disabled), `_rebuild_index` cannot
raise: it succeeds and replaces the index with exactly the embeddings of the
current documents, touching nothing else. -/
theorem rebuild_spec (M : Models) (s : SimpleState)
    (hnr : s.use_reranker = true → s.reranker_loaded = true) :
    (rebuild_index M s).2 = none ∧
    (rebuild_index M s).1.documents = s.documents ∧
    (rebuild_index M s).1.metadata = s.metadata ∧
    (rebuild_index M s).1.embedding_model = s.embedding_model ∧
    (rebuild_index M s).1.use_reranker = s.use_reranker ∧
    (rebuild_index M s).1.model_loaded = true ∧
    (rebuild_index M s).1.reranker_loaded = s.reranker_loaded ∧
    (rebuild_index M s).1.index = some (s.documents.map (M.embed s.embedding_model)) := by
  obtain ⟨e1, e2, e3, e4, e5, e6, e7⟩ := ensure_fields M s
  obtain ⟨g1, g2, g3⟩ := ensure_reranker M s
  obtain ⟨hg, hrl⟩ := g2 hnr
  rcases he : ensure_model_loaded M s with ⟨s1, exc⟩
  have hs1 : (ensure_model_loaded M s).1 = s1 := by rw [he]
  have hs2 : (ensure_model_loaded M s).2 = exc := by rw [he]
  rw [hs1] at e1 e2 e3 e4 e5 e6 e7 hrl
  rw [hs2] at hg
  subst hg
  simp only [rebuild_index, he]
  by_cases hd : s1.documents.isEmpty
  · have hnil : s.documents = [] := by rw [← e1]; exact List.isEmpty_iff.mp hd
    simp [hd, e1, e2, e3, e4, e7, hrl, hnil]
  · have hne : s.documents ≠ [] := by
      rw [← e1]
      intro hh
      exact hd (by simp [hh])
    simp [hd, hne, e1, e2, e3, e4, e7, hrl]

/-- `delete_document` preserves the C1 invariant. -/
theorem delete_preserves_InvC1 (M : Models) (s : SimpleState) (docId : String)
    (h : InvC1 M s) : InvC1 M (delete_document M s docId).1 := by
  obtain ⟨h1, h2, h3, h4⟩ := h
  simp only [delete_document]
  by_cases hrem : (s.metadata.filter (fun m => m.docId = docId)).length = 0
  · simp only [if_pos hrem]; exact ⟨h1, h2, h3, h4⟩
  · simp only [if_neg hrem]
    have hdocsne : ¬s.documents.isEmpty := by
      intro hd
      have hdn : s.documents = [] := List.isEmpty_iff.mp hd
      have hmd : s.metadata = [] := List.length_eq_zero.mp (by rw [h1, hdn]; rfl)
      rw [hmd] at hrem; simp at hrem
    obtain ⟨hml, hur⟩ := h4 hdocsne
    have hur2 : (deleteFiltered s docId).use_reranker = true →
        (deleteFiltered s docId).reranker_loaded = true := by
      simpa [deleteFiltered] using hur
    obtain ⟨r0, r1, r2, r3, r4, r5, r6, r7⟩ := rebuild_spec M (deleteFiltered s docId) hur2
    rcases hrb : rebuild_index M (deleteFiltered s docId) with ⟨s3, e2⟩
    have hz1 : (rebuild_index M (deleteFiltered s docId)).1 = s3 := by rw [hrb]
    have hz2 : (rebuild_index M (deleteFiltered s docId)).2 = e2 := by rw [hrb]
    rw [hz1] at r1 r2 r3 r4 r5 r6 r7
    rw [hz2] at r0
    subst r0
    simp only [hrb]
    refine ⟨?_, ?_, fun _ => ?_, fun _ => ⟨r5, fun hu => ?_⟩⟩
    · rw [r2, r1]; simp [deleteFiltered]
    · rw [r7, r1, r3]; simp
    · rw [r7]; rfl
    · rw [r6]
      have hsur : s.use_reranker = true := by
        rw [r4] at hu; simpa [deleteFiltered] using hu
      simpa [deleteFiltered] using hur hsur

/-- Every mutating operation preserves the C1 invariant (a hung `add` never
completes; its step contributes no new state). -/
theorem applyOp_preserves_InvC1 (M : Models) (s : SimpleState) (op : SimpleOp)
    (h : InvC1 M s) : InvC1 M (applyOp M s op) := by
  rcases op with ⟨t, d, m⟩ | ⟨p, d, m⟩ | d
  · simp only [applyOp]
    rcases hr : add_text_document M s t d m with _ | r
    · exact h
    · exact add_preserves_InvC1 M s t d m r h hr
  · simp only [applyOp, add_pdf_document]
    rcases hr : add_text_document M s (extractPdfPages p) d
        (m ++ [("source_type", "pdf"), ("num_pages", toString p.length)]) with _ | r
    · exact h
    · exact add_preserves_InvC1 M s _ d _ r h hr
  · exact delete_preserves_InvC1 M s d h

/-- C1: running any sequence of `add_text_document` / `add_pdf_document` /
`delete_document` operations from a freshly constructed engine, after each
completed operation the FAISS index holds exactly one vector per stored chunk:
`len(index) == len(documents) == len(metadata)`, and the vector at ordinal
position `i` is the embedding of the chunk stored at position `i`. -/
theorem C1_store_index_invariant (M : Models) (cfg : SimpleConfig) (ops : List SimpleOp) :
    ((runOps M cfg ops).index.getD []).length = (runOps M cfg ops).documents.length ∧
    (runOps M cfg ops).documents.length = (runOps M cfg ops).metadata.length ∧
    (runOps M cfg ops).index.getD []
      = (runOps M cfg ops).documents.map (M.embed (runOps M cfg ops).embedding_model) := by
  have hinv : InvC1 M (runOps M cfg ops) := by
    rw [runOps]
    induction ops using List.reverseRecOn with
    | nil => exact ⟨rfl, rfl, by simp [initSimple], by simp [initSimple]⟩
    | append_singleton l op ih =>
      rw [List.foldl_append, List.foldl_cons, List.foldl_nil]
      exact applyOp_preserves_InvC1 M _ op ih
  obtain ⟨h1, h2, _, _⟩ := hinv
  exact ⟨by rw [h2]; simp, h1.symm, h2⟩

/-- C5, counterexample: loading the snapshot `snapC5`, whose recorded
embedding-model name (`"other-model"`) differs from the configured one
(`"test-embedder"`), surfaces nothing: `load_index` returns Python `None`, the
snapshot's documents are installed, the vector index is silently skipped, and a
subsequent search is served from that state — returning the empty list, with no
error.  Loading `snapC5dim`, whose recorded dimension (7) and stored vectors
disagree with the configured model's dimension (2), installs the mismatched
vectors wholesale: no dimension check exists. -/
theorem C5_counterexample :
    (load_index snapC5 (initSimple testCfg)).2 = none ∧
    (engineInit testCfg snapC5).documents = [strToL "chunk one"] ∧
    (engineInit testCfg snapC5).index = none ∧
    (search testModels (engineInit testCfg snapC5) (strToL "any query") 5 none).2 = [] ∧
    (load_index snapC5dim (initSimple testCfg)).2 = none ∧
    (engineInit testCfg snapC5dim).index = some [[9, 9, 9, 9, 9, 9, 9]] := by
  decide

/-- C5, amended: `load_index` never reports anything to its caller (it returns
`None` on every path); an embedding-model-name mismatch is detected internally
but merely causes the vector-index load to be skipped after the snapshot's
documents, metadata, dimension and reranker settings have already been
installed; the recorded dimension is never validated. -/
theorem C5_amended (disk : Snapshot) (s : SimpleState) (d : SavedData)
    (hd : disk.dataFile = some d) (hm : d.embedding_model ≠ s.embedding_model) :
    (∀ (dk : Snapshot) (st : SimpleState), (load_index dk st).2 = none) ∧
    load_index disk s =
      ({ s with documents := d.documents, metadata := d.metadata,
                embedding_dimension := d.embedding_dimension,
                reranker_model := d.reranker_model, use_reranker := d.use_reranker }, none) := by
  constructor
  · intro dk st
    rcases h : dk.dataFile with _ | d'
    · simp [load_index, h]
    · simp only [load_index, h]
      by_cases h1 : d'.embedding_model ≠ st.embedding_model
      · rw [if_pos h1]
      · rw [if_neg h1]
        rcases h2 : dk.indexFile with _ | v
        · simp [h2]
        · simp only [h2]
          by_cases h3 : dimTruthy d'.embedding_dimension = true
          · simp [h3]
          · simp [h3]
  · simp [load_index, hd, hm]

theorem C5_witness :
    snapC5.dataFile = some savedC5 ∧
    savedC5.embedding_model ≠ (initSimple testCfg).embedding_model ∧
    ((∀ (dk : Snapshot) (st : SimpleState), (load_index dk st).2 = none) ∧
      load_index snapC5 (initSimple testCfg) =
        ({ initSimple testCfg with
           documents := savedC5.documents, metadata := savedC5.metadata,
           embedding_dimension := savedC5.embedding_dimension,
           reranker_model := savedC5.reranker_model,
           use_reranker := savedC5.use_reranker }, none)) :=
  ⟨rfl, by decide, C5_amended snapC5 (initSimple testCfg) savedC5 rfl (by decide)⟩

/-! ## C7 — shape of search results -/

/-- `faissSearch` returns `min k count` hits. -/
theorem faissSearch_length (vecs : List Vec) (q : Vec) (k : Nat) :
    (faissSearch vecs q k).length = min k vecs.length := by
  simp [faissSearch, List.length_insertionSort, List.enum_length]

/-- `faissSearch` hits come in ascending distance order. -/
theorem faissSearch_sorted (vecs : List Vec) (q : Vec) (k : Nat) :
    ((faissSearch vecs q k).map Prod.fst).Chain' (· ≤ ·) := by
  apply List.Pairwise.chain'
  rw [List.pairwise_map]
  exact ((List.sorted_insertionSort _ _).sublist (List.take_sublist _ _)).imp (fun h => h)

/-- Ranks in the cleaned-up result list are `1..len`: mapping `rankOf` over the
enumerate-and-clean step yields `range' 1 len`. -/
theorem enum_map_rankOf (l : List Cand) (F : Nat × Cand → ResHit)
    (hF : ∀ p, (F p).rank = p.1 + 1) :
    ((l.enum.map (fun p => SRes.hit (F p))).map SRes.rankOf) = List.range' 1 l.length := by
  rw [List.map_map]
  have h1 : (SRes.rankOf ∘ fun p => SRes.hit (F p)) = (fun p : Nat × Cand => p.1 + 1) := by
    funext p; simp [SRes.rankOf, hF]
  have h2 : (fun p : Nat × Cand => p.1 + 1) = ((fun i => i + 1) ∘ Prod.fst) := rfl
  rw [h1, h2, ← List.map_map, List.enum_map_fst, List.range'_eq_map_range]
  exact List.map_congr_left (fun a _ => Nat.add_comm a 1)

/-- Scores in the cleaned-up result list are the per-candidate final scores. -/
theorem enum_map_scoreOf (l : List Cand) (F : Nat × Cand → ResHit) (g : Cand → Int)
    (hF : ∀ p, (F p).score = g p.2) :
    ((l.enum.map (fun p => SRes.hit (F p))).map SRes.scoreOf) = l.map g := by
  rw [List.map_map]
  have h1 : (SRes.scoreOf ∘ fun p => SRes.hit (F p)) = (g ∘ Prod.snd) := by
    funext p; simp [SRes.scoreOf, hF]
  rw [h1, ← List.map_map, List.enum_map_snd]

/-- The truncated descending sort used by the rerank branch is pairwise
descending. -/
theorem pairwise_take_insertionSort (l : List Cand) (n : Nat) :
    (((l.insertionSort candGE).take n).Pairwise candGE) :=
  (List.sorted_insertionSort candGE l).sublist (List.take_sublist _ _)

/-- Elements of the truncated sort come from the original candidate list. -/
theorem mem_take_insertionSort {l : List Cand} {n : Nat} {c : Cand}
    (h : c ∈ (l.insertionSort candGE).take n) : c ∈ l :=
  (List.mem_insertionSort candGE).mp (List.mem_of_mem_take h)

/-- Every candidate surviving the rerank branch carries the rerank score of its
own content. -/
theorem rerank_branch_scores (f : List Char → Int) (n : Nat) (cands : List Cand) :
    ∀ c ∈ ((cands.map (fun c => { c with rerank_score := some (f c.content) })).insertionSort
        candGE).take n,
      c.rerank_score = some (f c.content) := by
  intro c hc
  have hm := mem_take_insertionSort hc
  rw [List.mem_map] at hm
  obtain ⟨c0, _, rfl⟩ := hm
  rfl

/-- The final scores of the rerank branch (rerank score when present, else the
initial score — here always present) are descending. -/
theorem rerank_branch_chain (f : List Char → Int) (n : Nat) (cands : List Cand) :
    ((((cands.map (fun c => { c with rerank_score := some (f c.content) })).insertionSort
        candGE).take n).map
      (fun c => if c.rerank_score.isSome then c.rerank_score.getD 0 else c.initial_score)).Chain'
      (fun a b => b ≤ a) := by
  have heq : (((cands.map (fun c => { c with rerank_score := some (f c.content) })).insertionSort
        candGE).take n).map
      (fun c => if c.rerank_score.isSome then c.rerank_score.getD 0 else c.initial_score)
      = (((cands.map (fun c => { c with rerank_score := some (f c.content) })).insertionSort
        candGE).take n).map (fun c => c.rerank_score.getD 0) :=
    List.map_congr_left (fun c hc => by rw [rerank_branch_scores f n cands c hc]; rfl)
  rw [heq]
  apply List.Pairwise.chain'
  rw [List.pairwise_map]
  exact (pairwise_take_insertionSort _ _).imp (fun h => h)

/-- C7: on a non-empty well-formed store, `search` pools
`min(3×n_results, store size)` candidates when reranking is requested (else
`min(n_results, store size)`), truncates to at most `n_results` results
(`len = min(n_results, pool)`), assigns 1-based ranks `1..len`, returns only
genuine hits, and — when reranking is requested and the reranker is loaded —
every returned score is the cross-encoder score of that result's content and the
results come sorted by it, higher first. -/
theorem C7_search_shape (M : Models) (s : SimpleState) (q : List Char) (n : Nat)
    (u : Option Bool) (vs : List Vec)
    (hdocs : ¬s.documents.isEmpty)
    (hidx : s.index = some vs)
    (hlen : vs.length = s.documents.length)
    (hens : (ensure_model_loaded M s).2 = none) :
    (search M s q n u).2.length
        = min n (min (if u.getD s.use_reranker then n * 3 else n) s.documents.length) ∧
    (search M s q n u).2.map SRes.rankOf = List.range' 1 (search M s q n u).2.length ∧
    (∀ r ∈ (search M s q n u).2, ∃ hh, r = SRes.hit hh) ∧
    (u.getD s.use_reranker = true → (ensure_model_loaded M s).1.reranker_loaded = true →
      ((search M s q n u).2.map SRes.scoreOf).Chain' (fun a b => b ≤ a) ∧
      (∀ hh : ResHit, SRes.hit hh ∈ (search M s q n u).2 →
        hh.score = M.rerank s.reranker_model q hh.content)) := by
  have hde : s.documents.isEmpty = false := by
    cases h' : s.documents.isEmpty
    · rfl
    · exact absurd h' hdocs
  rcases he : ensure_model_loaded M s with ⟨s1, exc⟩
  have hs2 : (ensure_model_loaded M s).2 = exc := by rw [he]
  have hexc : exc = none := by rw [← hs2, hens]
  subst hexc
  obtain ⟨e1, e2, e3, e4, e5, e6, e7⟩ := ensure_fields M s
  have hs1 : (ensure_model_loaded M s).1 = s1 := by rw [he]
  rw [hs1] at e1 e2 e3 e4 e5 e6
  have hvs : s1.index.getD [] = vs := by rw [e6, hidx]; rfl
  dsimp only
  simp only [search, he, hde, Bool.false_eq_true, if_false]
  rw [e4]
  refine ⟨?_, ?_, ?_, ?_⟩
  · split_ifs with hA hB hB <;>
      simp only [List.length_map, List.enum_length, List.length_take,
        List.length_insertionSort, faissSearch_length, hvs, e1, hlen] <;>
      omega
  · rw [enum_map_rankOf _ _ (fun p => rfl), List.length_map, List.enum_length]
  · intro r hr
    rw [List.mem_map] at hr
    obtain ⟨p, _, hp⟩ := hr
    exact ⟨_, hp.symm⟩
  · intro hR hRL
    simp only [hR, hRL, true_and, if_true]
    by_cases hcE : (List.map
        (fun p => ({ content := s1.documents.getD p.2 [], metadata := s1.metadata.getD p.2 default,
                     initial_score := p.1, index := p.2, rerank_score := none } : Cand))
        (faissSearch (s1.index.getD []) (M.embed s1.embedding_model q)
          (n * 3 ⊓ s1.documents.length))).isEmpty = true
    · have hhits : faissSearch (s1.index.getD []) (M.embed s1.embedding_model q)
          (n * 3 ⊓ s1.documents.length) = [] :=
        List.map_eq_nil_iff.mp (List.isEmpty_iff.mp hcE)
      simp [hhits]
    · rw [if_pos (by simpa using hcE)]
      constructor
      · rw [enum_map_scoreOf _ _
          (fun c => if c.rerank_score.isSome then c.rerank_score.getD 0 else c.initial_score)
          (fun p => rfl)]
        exact rerank_branch_chain _ _ _
      · intro hh hmem
        rw [List.mem_map] at hmem
        obtain ⟨p, hp, hhit⟩ := hmem
        injection hhit with h'
        subst h'
        have hps := rerank_branch_scores (M.rerank s1.reranker_model q) n _ p.2
          (List.snd_mem_of_mem_enum hp)
        rw [← e5]
        simp [hps]

theorem C7_witness :
    ¬sTwo.documents.isEmpty ∧
    sTwo.index = some [[0, 1], [1, 0]] ∧
    ([[0, 1], [1, 0]] : List Vec).length = sTwo.documents.length ∧
    (ensure_model_loaded testModels sTwo).2 = none ∧
    ((search testModels sTwo (strToL "q") 1 none).2.length
        = min 1 (min (if (none : Option Bool).getD sTwo.use_reranker then 1 * 3 else 1)
            sTwo.documents.length) ∧
      (search testModels sTwo (strToL "q") 1 none).2.map SRes.rankOf
        = List.range' 1 (search testModels sTwo (strToL "q") 1 none).2.length ∧
      (∀ r ∈ (search testModels sTwo (strToL "q") 1 none).2, ∃ hh, r = SRes.hit hh) ∧
      ((none : Option Bool).getD sTwo.use_reranker = true →
        (ensure_model_loaded testModels sTwo).1.reranker_loaded = true →
        ((search testModels sTwo (strToL "q") 1 none).2.map SRes.scoreOf).Chain'
            (fun a b => b ≤ a) ∧
        (∀ hh : ResHit, SRes.hit hh ∈ (search testModels sTwo (strToL "q") 1 none).2 →
          hh.score = testModels.rerank sTwo.reranker_model (strToL "q") hh.content))) :=
  ⟨by decide, by decide, by decide, by decide,
    C7_search_shape testModels sTwo (strToL "q") 1 none [[0, 1], [1, 0]]
      (by decide) (by decide) (by decide) (by decide)⟩

/-! ## C8 — greedy context assembly -/

/-- The accumulation loop of `get_context_for_query` equals "take the greedy
prefix of the tagged pieces": error entries contribute nothing and the loop
stops at the first piece that would overflow the budget. -/
theorem ctxLoop_eq (maxLen : Nat) :
    ∀ (rs : List SRes) (cur : Nat) (acc : List (List Char)),
      ctxLoop maxLen rs cur acc
        = acc ++ (rs.filterMap pieceOf).take
            (greedyCount maxLen (rs.filterMap pieceOf) cur) := by
  intro rs
  induction rs with
  | nil => intro cur acc; simp [ctxLoop, greedyCount]
  | cons r rest ih =>
    intro cur acc
    cases r with
    | err m =>
      simp only [ctxLoop, List.filterMap_cons_none (by rfl : pieceOf (SRes.err m) = none)]
      exact ih cur acc
    | hit h =>
      simp only [ctxLoop,
        List.filterMap_cons_some (by rfl : pieceOf (SRes.hit h) = some (mkPiece h))]
      by_cases hov : maxLen < cur + (mkPiece h).length
      · rw [if_pos hov]
        simp [greedyCount, hov]
      · rw [if_neg hov]
        rw [ih (cur + (mkPiece h).length) (acc ++ [mkPiece h])]
        simp [greedyCount, hov, List.append_assoc, List.take_succ_cons]

theorem greedyCount_le (maxLen : Nat) :
    ∀ (ps : List (List Char)) (cur : Nat), greedyCount maxLen ps cur ≤ ps.length := by
  intro ps
  induction ps with
  | nil => intro cur; simp [greedyCount]
  | cons p rest ih =>
    intro cur
    simp only [greedyCount, List.length_cons]
    split_ifs
    · simp
    · simpa using Nat.succ_le_succ (ih (cur + p.length))

theorem greedyCount_spec (maxLen : Nat) :
    ∀ (ps : List (List Char)) (cur : Nat), greedyCount maxLen ps cur ≠ 0 →
      ((ps.take (greedyCount maxLen ps cur)).map List.length).sum + cur ≤ maxLen := by
  intro ps
  induction ps with
  | nil => intro cur h; simp [greedyCount] at h
  | cons p rest ih =>
    intro cur h
    simp only [greedyCount] at h ⊢
    split_ifs at h ⊢ with hov
    · exact absurd rfl h
    · rw [List.take_succ_cons]
      simp only [List.map_cons, List.sum_cons]
      by_cases h0 : greedyCount maxLen rest (cur + p.length) = 0
      · rw [h0]
        simp only [List.take_zero, List.map_nil, List.sum_nil]
        omega
      · have := ih (cur + p.length) h0
        omega

theorem greedyCount_greatest (maxLen : Nat) :
    ∀ (ps : List (List Char)) (cur j : Nat), greedyCount maxLen ps cur < j → j ≤ ps.length →
      ¬(((ps.take j).map List.length).sum + cur ≤ maxLen) := by
  intro ps
  induction ps with
  | nil => intro cur j h1 h2 _; simp at h2; omega
  | cons p rest ih =>
    intro cur j h1 h2
    simp only [greedyCount] at h1
    obtain ⟨j', rfl⟩ : ∃ j', j = j' + 1 := ⟨j - 1, by omega⟩
    rw [List.take_succ_cons]
    simp only [List.map_cons, List.sum_cons, List.length_cons] at h2 ⊢
    split_ifs at h1 with hov
    · intro hle; omega
    · intro hle
      exact (ih (cur + p.length) j' (by omega) (by omega)) (by omega)

theorem greedyCount_eq_findGreatest (maxLen : Nat) (ps : List (List Char)) (cur : Nat) :
    Nat.findGreatest (fun j => ((ps.take j).map List.length).sum + cur ≤ maxLen) ps.length
      = greedyCount maxLen ps cur := by
  rw [Nat.findGreatest_eq_iff]
  exact ⟨greedyCount_le maxLen ps cur,
    fun h => greedyCount_spec maxLen ps cur h,
    fun j h1 h2 => greedyCount_greatest maxLen ps cur j h1 h2⟩

theorem search_cases (M : Models) (s : SimpleState) (q : List Char) (n : Nat) (u : Option Bool) :
    (∃ e, (search M s q n u).2 = [SRes.err e]) ∨
    ∀ r ∈ (search M s q n u).2, ∃ hh, r = SRes.hit hh := by
  by_cases hd : s.documents.isEmpty
  · exact Or.inl ⟨errNoDocs, by simp [search, hd]⟩
  · have hde : s.documents.isEmpty = false := by
      cases h' : s.documents.isEmpty
      · rfl
      · exact absurd h' hd
    rcases he : ensure_model_loaded M s with ⟨s1, exc⟩
    rcases exc with _ | e
    · right
      intro r hr
      simp only [search, he, hde, Bool.false_eq_true, if_false] at hr
      rw [List.mem_map] at hr
      obtain ⟨p, _, hp⟩ := hr
      exact ⟨_, hp.symm⟩
    · exact Or.inl ⟨strToL "Search failed: " ++ e, by simp [search, he, hde]⟩

/-- C8: `get_context_for_query` greedily concatenates the ranked results in
order, each piece tagged with its source doc id and score (`mkPiece`), never
splitting a piece: the assembled context is exactly the longest prefix of the
tagged pieces whose total length fits in `max_context_length`
(`Nat.findGreatest`), every piece beyond it — in particular the first one that
would overflow — being excluded whole; when no piece qualifies (or the search
returned nothing or an error) the sentinel "No relevant context found." is
returned instead of an error. -/
theorem C8_context_greedy (M : Models) (s : SimpleState) (q : List Char)
    (maxLen : Nat) (u : Option Bool) :
    get_context_for_query M s q maxLen u =
      (if Nat.findGreatest (fun j =>
            ((((search M s q 5 u).2.filterMap pieceOf).take j).map List.length).sum ≤ maxLen)
          ((search M s q 5 u).2.filterMap pieceOf).length = 0 then noContextMsg
       else strToL "Relevant context:\n\n"
         ++ List.intercalate (strToL "\n---\n")
            (((search M s q 5 u).2.filterMap pieceOf).take
              (Nat.findGreatest (fun j =>
                  ((((search M s q 5 u).2.filterMap pieceOf).take j).map List.length).sum ≤ maxLen)
                ((search M s q 5 u).2.filterMap pieceOf).length))) := by
  have hgf : ∀ ps : List (List Char),
      Nat.findGreatest (fun j => ((ps.take j).map List.length).sum ≤ maxLen) ps.length
        = greedyCount maxLen ps 0 := by
    intro ps
    rw [← greedyCount_eq_findGreatest maxLen ps 0]
    congr 1
  rw [hgf]
  rcases search_cases M s q 5 u with ⟨e, hse⟩ | hall
  · simp only [get_context_for_query, hse]
    simp [pieceOf, greedyCount]
  · rcases hrs : (search M s q 5 u).2 with _ | ⟨r0, rest⟩
    · simp only [get_context_for_query, hrs]
      simp [greedyCount]
    · obtain ⟨hh0, hr0⟩ := hall r0 (by rw [hrs]; exact List.mem_cons_self _ _)
      subst hr0
      simp only [get_context_for_query, hrs]
      rw [ctxLoop_eq]
      have hfm : List.filterMap pieceOf (SRes.hit hh0 :: rest)
          = mkPiece hh0 :: List.filterMap pieceOf rest :=
        List.filterMap_cons_some (by rfl)
      rw [hfm]
      simp only [List.isEmpty_cons, List.head?_cons, Bool.false_or, Bool.false_eq_true,
        if_false, List.nil_append]
      by_cases hk : greedyCount maxLen (mkPiece hh0 :: List.filterMap pieceOf rest) 0 = 0
      · simp [hk]
      · obtain ⟨g, hg⟩ : ∃ g, greedyCount maxLen (mkPiece hh0 :: List.filterMap pieceOf rest) 0
            = g + 1 := ⟨greedyCount maxLen (mkPiece hh0 :: List.filterMap pieceOf rest) 0 - 1,
              by omega⟩
        rw [hg, List.take_succ_cons]
        simp

/-! ## C6 — reranker load failure -/

/-- C6, counterexample: with a `CrossEncoder` whose constructor raises, a search
on a reranker-enabled `SimpleRAGSystem` holding one document does not fall back
to embedding-distance order — the load failure propagates out of
`_ensure_model_loaded` into `search`'s catch-all, which returns the single error
dict `{"error": "Search failed: boom"}` instead of results. -/
theorem C6_counterexample :
    (search failModels sC6 (strToL "any query") 5 none).2
      = [SRes.err (strToL "Search failed: boom")] := by
  decide

/-- C6, amended: the claim holds for `ImprovedRAGSystem` — when the
`CrossEncoder` constructor raises, `_ensure_models_loaded` catches the failure
and sets `use_reranker = False` for the remainder of the process lifetime, and
the calling `search` still succeeds, returning `min n_results count` untouched
candidates in ascending embedding-distance order.  (For `SimpleRAGSystem` the
claim fails: the load failure propagates and `search` returns an error value —
see the counterexample.) -/
theorem C6_amended (M : Models) (si : ImpState) (q : List Char) (n : Nat)
    (u : Option Bool) (e : List Char) (vs : List Vec)
    (hfail : M.crossLoad si.reranker_model = some e)
    (hur : si.use_reranker = true)
    (hnl : si.reranker_loaded = false)
    (hidx : si.index = some vs)
    (hlen : vs.length = si.documents.length)
    (hdocs : ¬si.documents.isEmpty)
    (hnc : si.embedding_cache.lookup (cacheKey q n) = none) :
    (isearch M si q n u).1.use_reranker = false ∧
    (isearch M si q n u).2.length = min n si.documents.length ∧
    (∀ x ∈ (isearch M si q n u).2, x.rerank_score = none) ∧
    ((isearch M si q n u).2.map IRes.score).Chain' (· ≤ ·) := by
  obtain ⟨em, rm, ur, ce, ml, dim, idx, docs, md, cache, rl⟩ := si
  simp only at hur hnl hidx hdocs hnc hfail hlen
  subst hur hnl hidx
  have hmin : min (min n docs.length) vs.length = min n docs.length := by omega
  cases ml <;> cases ce <;>
    (simp [isearch, ensure_models_loaded, hfail, hdocs, hnc, faissSearch_length, hmin,
       List.mem_map, List.map_map, Function.comp]
     <;> refine ⟨fun x a b _ hx => by subst hx; rfl, ?_⟩
     <;> exact faissSearch_sorted vs (M.embed em q) _)

/-- `_ensure_models_loaded` never touches the embedding cache. -/
theorem ensure_imp_cache (M : Models) (s : ImpState) :
    (ensure_models_loaded M s).embedding_cache = s.embedding_cache := by
  obtain ⟨em, rm, ur, ce, ml, dim, idx, docs, md, cache, rl⟩ := s
  simp only [ensure_models_loaded]
  cases ml <;> cases ur <;> cases rl <;> cases idx <;>
    cases hcl : M.crossLoad rm <;> simp [hcl]

/-! ## C9 — save/load round trip -/

/-- What `_ensure_model_loaded` leaves in `self.index`: untouched when the model
was already loaded, otherwise an index object is guaranteed (a fresh empty one
if none existed). -/
theorem ensure_index_eq (M : Models) (s : SimpleState) :
    (ensure_model_loaded M s).1.index
      = if s.model_loaded then s.index
        else (match s.index with | none => some [] | some v => some v) := by
  obtain ⟨em, rm, ur, ml, dim, idx, docs, md, rl⟩ := s
  simp only [ensure_model_loaded]
  cases ml <;> cases ur <;> cases rl <;> cases idx <;>
    cases hcl : M.crossLoad rm <;> simp [hcl]

theorem ensure_rl_eq (M : Models) (s : SimpleState) :
    (ensure_model_loaded M s).1.reranker_loaded
      = (s.reranker_loaded || (s.use_reranker && (M.crossLoad s.reranker_model).isNone)) := by
  obtain ⟨em, rm, ur, ml, dim, idx, docs, md, rl⟩ := s
  simp only [ensure_model_loaded]
  cases ml <;> cases ur <;> cases rl <;> cases idx <;>
    cases hcl : M.crossLoad rm <;> simp [hcl]

theorem ensure_exc_eq (M : Models) (s : SimpleState) :
    (ensure_model_loaded M s).2
      = if s.use_reranker ∧ ¬s.reranker_loaded then M.crossLoad s.reranker_model else none := by
  obtain ⟨em, rm, ur, ml, dim, idx, docs, md, rl⟩ := s
  simp only [ensure_model_loaded]
  cases ml <;> cases ur <;> cases rl <;> cases idx <;>
    cases hcl : M.crossLoad rm <;> simp [hcl]

theorem search_result_congr (M : Models) (a b : SimpleState) (q : List Char) (n : Nat)
    (u : Option Bool)
    (h1 : a.documents = b.documents) (h2 : a.metadata = b.metadata)
    (h3 : a.embedding_model = b.embedding_model) (h4 : a.reranker_model = b.reranker_model)
    (h5 : a.use_reranker = b.use_reranker)
    (h6 : (ensure_model_loaded M a).1.index = (ensure_model_loaded M b).1.index)
    (h7 : (ensure_model_loaded M a).1.reranker_loaded
        = (ensure_model_loaded M b).1.reranker_loaded)
    (h8 : (ensure_model_loaded M a).2 = (ensure_model_loaded M b).2) :
    (search M a q n u).2 = (search M b q n u).2 := by
  obtain ⟨fa1, fa2, fa3, fa4, fa5, fa6, fa7⟩ := ensure_fields M a
  obtain ⟨fb1, fb2, fb3, fb4, fb5, fb6, fb7⟩ := ensure_fields M b
  by_cases hd : a.documents.isEmpty
  · have hd' : b.documents.isEmpty = true := by rw [← h1]; exact hd
    simp [search, hd, hd']
  · have hd' : ¬b.documents.isEmpty = true := by rw [← h1]; exact hd
    have hdea : a.documents.isEmpty = false := by
      cases hx : a.documents.isEmpty
      · rfl
      · exact absurd hx hd
    have hdeb : b.documents.isEmpty = false := by
      cases hx : b.documents.isEmpty
      · rfl
      · exact absurd hx hd'
    rcases hea : ensure_model_loaded M a with ⟨s1a, ea⟩
    rcases heb : ensure_model_loaded M b with ⟨s1b, eb⟩
    have hpa : (ensure_model_loaded M a).1 = s1a := by rw [hea]
    have hpb : (ensure_model_loaded M b).1 = s1b := by rw [heb]
    have hqa : (ensure_model_loaded M a).2 = ea := by rw [hea]
    have hqb : (ensure_model_loaded M b).2 = eb := by rw [heb]
    rw [hpa] at fa1 fa2 fa3 fa4 fa5 fa6
    rw [hpb] at fb1 fb2 fb3 fb4 fb5 fb6
    rw [hpa, hpb] at h6 h7
    rw [hqa, hqb] at h8
    have p1 : s1a.documents = s1b.documents := by rw [fa1, fb1, h1]
    have p2 : s1a.metadata = s1b.metadata := by rw [fa2, fb2, h2]
    have p3 : s1a.embedding_model = s1b.embedding_model := by rw [fa3, fb3, h3]
    have p4 : s1a.use_reranker = s1b.use_reranker := by rw [fa4, fb4, h5]
    have p5 : s1a.reranker_model = s1b.reranker_model := by rw [fa5, fb5, h4]
    subst h8
    rcases ea with _ | e
    · simp only [search, hea, heb, hdea, hdeb, Bool.false_eq_true, if_false]
      rw [p1, p2, p3, p4, p5, h6, h7]
    · simp [search, hea, heb, hdea, hdeb]

/-- Loading the snapshot just saved into a freshly constructed engine with the
same configured embedding model reinstates documents, metadata, dimension,
reranker settings and the vector index; only the lazily-loaded model objects
are (re)unloaded. -/
theorem roundtrip_state (cfg : SimpleConfig) (s : SimpleState)
    (hcfg : cfg.embedding_model = s.embedding_model)
    (hw2 : s.index.isSome = true → dimTruthy s.embedding_dimension = true) :
    engineInit cfg (save_index s) =
      { initSimple cfg with
        documents := s.documents, metadata := s.metadata,
        embedding_dimension := s.embedding_dimension,
        reranker_model := s.reranker_model, use_reranker := s.use_reranker,
        index := s.index } := by
  simp only [engineInit, load_index, save_index, initSimple]
  rw [if_neg (by simp [hcfg])]
  rcases hidx : s.index with _ | v
  · rfl
  · have hdt : dimTruthy s.embedding_dimension = true := hw2 (by rw [hidx]; rfl)
    simp [hdt]

/-- C9: `save_index` then `load_index` into a fresh engine instance with the
same configuration yields identical chunk texts and metadata, and — for every
query, result count and reranker toggle — search results identical to the
original instance's (exact equality; scores are identical, not merely within
tolerance).  The hypotheses are the well-formedness facts every reachable
engine state satisfies: an index object exists once the model is loaded, a
loaded index implies a truthy recorded dimension (else `load_index` would skip
the FAISS file), and a loaded reranker implies reranking is enabled and its
model loads. -/
theorem C9_save_load_roundtrip (M : Models) (cfg : SimpleConfig) (s : SimpleState)
    (hcfg1 : cfg.embedding_model = s.embedding_model)
    (hcfg2 : cfg.reranker_model = s.reranker_model)
    (hcfg3 : cfg.use_reranker = s.use_reranker)
    (hw1 : s.model_loaded = true → s.index.isSome = true)
    (hw2 : s.index.isSome = true → dimTruthy s.embedding_dimension = true)
    (hw3 : s.reranker_loaded = true → M.crossLoad s.reranker_model = none)
    (hw4 : s.reranker_loaded = true → s.use_reranker = true) :
    (engineInit cfg (save_index s)).documents = s.documents ∧
    (engineInit cfg (save_index s)).metadata = s.metadata ∧
    ∀ (q : List Char) (n : Nat) (u : Option Bool),
      (search M (engineInit cfg (save_index s)) q n u).2 = (search M s q n u).2 := by
  rw [roundtrip_state cfg s hcfg1 hw2]
  refine ⟨rfl, rfl, fun q n u => ?_⟩
  apply search_result_congr
  · rfl
  · rfl
  · exact hcfg1
  · rfl
  · rfl
  · rw [ensure_index_eq, ensure_index_eq]
    rcases hml : s.model_loaded
    · rfl
    · have := hw1 hml
      rcases hidx : s.index with _ | v
      · rw [hidx] at this; simp at this
      · simp
  · rw [ensure_rl_eq, ensure_rl_eq]
    rcases hrl : s.reranker_loaded
    · rfl
    · have hcl := hw3 hrl
      have hur := hw4 hrl
      simp [hcl, hur]
  · rw [ensure_exc_eq, ensure_exc_eq]
    rcases hrl : s.reranker_loaded
    · rfl
    · have hcl := hw3 hrl
      simp [hcl]

theorem C9_witness :
    testCfgR.embedding_model = sTwo.embedding_model ∧
    testCfgR.reranker_model = sTwo.reranker_model ∧
    testCfgR.use_reranker = sTwo.use_reranker ∧
    (sTwo.model_loaded = true → sTwo.index.isSome = true) ∧
    (sTwo.index.isSome = true → dimTruthy sTwo.embedding_dimension = true) ∧
    (sTwo.reranker_loaded = true → testModels.crossLoad sTwo.reranker_model = none) ∧
    (sTwo.reranker_loaded = true → sTwo.use_reranker = true) ∧
    ((engineInit testCfgR (save_index sTwo)).documents = sTwo.documents ∧
      (engineInit testCfgR (save_index sTwo)).metadata = sTwo.metadata ∧
      ∀ (q : List Char) (n : Nat) (u : Option Bool),
        (search testModels (engineInit testCfgR (save_index sTwo)) q n u).2
          = (search testModels sTwo q n u).2) :=
  ⟨by decide, by decide, by decide, by decide, by decide, by decide, by decide,
    C9_save_load_roundtrip testModels testCfgR sTwo (by decide) (by decide) (by decide)
      (by decide) (by decide) (by decide) (by decide)⟩

/-! ## C10 — stale memoization cache in `ImprovedRAGSystem.search` -/

/-- C10: `ImprovedRAGSystem.search` memoizes its full result list keyed by
`(query, n_results)` and nothing ever invalidates the cache —
`add_text_document` leaves `embedding_cache` untouched for every input.
Concretely: after adding `tDocA` and searching `"q"` (n=1), adding `tDocB`
(whose embedding is strictly closer to the query) and repeating the identical
search returns the first call's cached result list, which differs from what the
same search computes over the current store when the cache is bypassed. -/
theorem C10_cache_never_invalidated :
    (∀ (M : Models) (s : ImpState) (t : List Char) (d : String)
        (m : List (String × String)),
        ((iadd_text_document M s t d m).1).embedding_cache = s.embedding_cache) ∧
    impSearch2.2 = impSearch1.2 ∧
    (isearch testModels { impB with embedding_cache := [] } (strToL "q") 1 none).2
      ≠ impSearch2.2 := by
  refine ⟨?_, by decide, by decide⟩
  intro M s t d m
  simp only [iadd_text_document]
  split <;> simp [ensure_imp_cache]

theorem C6_amended_witness :
    failModels.crossLoad siC6.reranker_model = some (strToL "boom") ∧
    siC6.use_reranker = true ∧ siC6.reranker_loaded = false ∧
    siC6.index = some [[0, 1]] ∧
    ([[0, 1]] : List Vec).length = siC6.documents.length ∧
    ¬siC6.documents.isEmpty ∧
    siC6.embedding_cache.lookup (cacheKey (strToL "any query") 5) = none ∧
    ((isearch failModels siC6 (strToL "any query") 5 none).1.use_reranker = false ∧
      (isearch failModels siC6 (strToL "any query") 5 none).2.length
        = min 5 siC6.documents.length ∧
      (∀ x ∈ (isearch failModels siC6 (strToL "any query") 5 none).2, x.rerank_score = none) ∧
      ((isearch failModels siC6 (strToL "any query") 5 none).2.map IRes.score).Chain' (· ≤ ·)) :=
  ⟨by decide, by decide, by decide, by decide, by decide, by decide, by decide,
    C6_amended failModels siC6 (strToL "any query") 5 none (strToL "boom") [[0, 1]]
      (by decide) (by decide) (by decide) (by decide) (by decide) (by decide) (by decide)⟩

theorem C3_witness :
    chunk_text (strToL "hi") = some [strToL "hi"] ∧
    (∀ c ∈ [strToL "hi"], (pyStrip c).length < 10) ∧
    (ensure_model_loaded testModels (initSimple testCfg)).2 = none ∧
    (add_text_document testModels (initSimple testCfg) (strToL "hi") "doc" [] =
        some ((ensure_model_loaded testModels (initSimple testCfg)).1,
              addSuccessMsg "doc" 0 1) ∧
      (ensure_model_loaded testModels (initSimple testCfg)).1.documents
          = (initSimple testCfg).documents ∧
      (ensure_model_loaded testModels (initSimple testCfg)).1.metadata
          = (initSimple testCfg).metadata ∧
      (ensure_model_loaded testModels (initSimple testCfg)).1.index.getD []
          = (initSimple testCfg).index.getD []) :=
  ⟨by decide, by decide, by decide,
    C3_amended testModels (initSimple testCfg) (strToL "hi") "doc" [] [strToL "hi"]
      (by decide) (by decide) (by decide)⟩

end Rag
